import Mathlib

/-!
Verification development for the claude-dev-framework session-memory pipeline
and its OOXML pack/unpack utility.

The Python sources are shallowly embedded: strings are Lean `String`s
(Python `str` operations are character-based, as are the Lean models below,
which recurse structurally over `String.data` so that every definition
evaluates by `decide`/`rfl`); dictionaries keyed in insertion order are lists
deduplicated by first occurrence; file systems touched by a script are
explicit structures; fallible I/O is `Except`.  `float` confidences are
embedded as `Rat` (all comparisons in the source are between small decimal
constants, where IEEE-double and rational comparison agree).
-/

/-- Characterwise prefix test (model of Python `str.startswith` /
the prefix step of substring search). -/
def isPfx : List Char → List Char → Bool
  | [], _ => true
  | _ :: _, [] => false
  | a :: as, b :: bs => a == b && isPfx as bs

/-- Index of the first occurrence of `needle` in `hay`, if any
(character index, as in Python's `str.index`). -/
def firstIdx : List Char → List Char → Option Nat
  | needle, [] => if needle.isEmpty then some 0 else none
  | needle, b :: bs =>
    if isPfx needle (b :: bs) then some 0
    else (firstIdx needle bs).map (· + 1)

/-- Model of Python's substring test `needle in hay`. -/
def containsSubstr (needle hay : String) : Bool :=
  (firstIdx needle.data hay.data).isSome

/-- Model of Python `str.startswith`. -/
def pyStartsWith (pre s : String) : Bool := isPfx pre.data s.data

/-- Model of Python `str.endswith`. -/
def pyEndsWith (suf s : String) : Bool := isPfx suf.data.reverse s.data.reverse

/-- Model of Python `s[:n]` (take the first `n` characters). -/
def pyTake (n : Nat) (s : String) : String := ⟨s.data.take n⟩

/-- ASCII lower-casing, the fragment of Python `str.lower` exercised by the
sources (paths and denylist patterns are ASCII). -/
def pyLower (s : String) : String := ⟨s.data.map Char.toLower⟩

/-- Splitting on a single-character separator, with Python `str.split(sep)`
semantics (keeps empty pieces, `"".split(sep) = [""]`). -/
def splitCharAux (c : Char) : List Char → List Char → List String
  | cur, [] => [⟨cur.reverse⟩]
  | cur, a :: as =>
    if a == c then ⟨cur.reverse⟩ :: splitCharAux c [] as
    else splitCharAux c (a :: cur) as

/-- Model of Python `s.split(c)` for a one-character separator. -/
def splitChar (c : Char) (s : String) : List String := splitCharAux c [] s.data

/-- Model of Python `sep.join(parts)`. -/
def joinWith (sep : String) : List String → String
  | [] => ""
  | [x] => x
  | x :: y :: xs => x ++ sep ++ joinWith sep (y :: xs)

/-- Python truthiness chain `a or b` on strings (empty string is falsy). -/
def pyOr (a b : String) : String := if a = "" then b else a

/-- First-occurrence deduplication: the key order of a Python `dict` /
`collections.Counter` / `defaultdict` built by insertion. -/
def dedupFirstAux : List String → List String → List String
  | _, [] => []
  | seen, x :: xs =>
    if x ∈ seen then dedupFirstAux seen xs
    else x :: dedupFirstAux (x :: seen) xs

/-- The distinct elements of `l` in order of first occurrence. -/
def dedupFirst (l : List String) : List String := dedupFirstAux [] l

/-- Number of occurrences of `p` in `l` (a `Counter` entry). -/
def countOcc (l : List String) (p : String) : Nat :=
  (l.filter (fun q => q == p)).length

/-- Model of `str(pathlib.Path(p).parent)` for POSIX paths: normalize away
empty and `"."` components, drop the last component; the parent of a
root-less single component is `"."`, of the root is `"/"`. -/
def pyParent (p : String) : String :=
  let comps := (splitChar '/' p).filter (fun c => c != "" && c != ".")
  let par := comps.dropLast
  if pyStartsWith "/" p then "/" ++ joinWith "/" par
  else if par.isEmpty then "." else joinWith "/" par

/-- Code-point lexicographic `≤` on character lists, the order Python uses
to compare strings. -/
def charListLe : List Char → List Char → Bool
  | [], _ => true
  | _ :: _, [] => false
  | a :: as, b :: bs =>
    if a.toNat < b.toNat then true
    else if b.toNat < a.toNat then false
    else charListLe as bs

/-- Python's `s1 <= s2` on strings. -/
def strLe (a b : String) : Bool := charListLe a.data b.data

/-- Python `sorted` on strings (code-point lexicographic ascending). -/
def sortStrings (l : List String) : List String :=
  l.insertionSort (fun a b => strLe a b = true)

/-- One parsed entry of a daily log's `## Activity Log` section, as produced
by `parse_activity_log` in `memory-learner.py` / `memory-summarize.py`. -/
structure Activity where
  timestamp : String
  type : String
  path : String
  detail : String

/-- One learning record, as built by the extractors of `memory-learner.py`
(the JSON dict with keys type/description/confidence/date/files/source). -/
structure Learning where
  type : String
  description : String
  confidence : Rat
  date : String
  files : List String
  source : String

namespace MemoryLearner

/-- The activity kinds counted by `detect_corrections`:
`act['type'] in ('edited', 'created/updated', 'updated')`. -/
def isEditType (t : String) : Bool :=
  t == "edited" || t == "created/updated" || t == "updated"

/-- The nonempty paths of edit-type activities, in log order: the stream of
`edit_counts[act['path']] += 1` updates in `detect_corrections`. -/
def editPaths (activities : List Activity) : List String :=
  (activities.filter (fun a => isEditType a.type && a.path != "")).map (·.path)

/-- The description f-string of a correction record (`memory-learner.py:82`). -/
def correctionDescription (filepath : String) (count : Nat) : String :=
  "File \x27" ++ filepath ++ "\x27 was edited " ++ toString count ++
    " times in one session, suggesting iterative corrections"

/-- The correction record appended for a file edited `count ≥ 3` times
(`memory-learner.py:80-87`); 0.6 is `6/10`. -/
def corrRecord (today : String) (activities : List Activity) (p : String) :
    Learning :=
  { type := "correction"
    description := correctionDescription p (countOcc (editPaths activities) p)
    confidence := 6/10
    date := today
    files := [p]
    source := "activity-log" }

/-- `detect_corrections` (`memory-learner.py:67-89`, duplicated verbatim in
`memory-summarize.py:206-227`): files edited 3+ times yield one `correction`
record each, at confidence 0.6.  `today` stands for
`datetime.now().strftime('%Y-%m-%d')`. -/
def detect_corrections (today : String) (activities : List Activity) :
    List Learning :=
  ((dedupFirst (editPaths activities)).filter
      (fun p => decide (3 ≤ countOcc (editPaths activities) p))).map
    (corrRecord today activities)

/-- The activity kinds grouped by `detect_related_patterns`:
`act['type'] in ('edited', 'created/updated', 'updated', 'created')`. -/
def isEditCreateType (t : String) : Bool :=
  isEditType t || t == "created"

/-- The `(parent, path)` pairs fed to `dir_files[parent].add(act['path'])`
in `detect_related_patterns`, in log order. -/
def dirPairs (activities : List Activity) : List (String × String) :=
  (activities.filter (fun a => isEditCreateType a.type && a.path != "")).filterMap
    (fun a =>
      if pyParent a.path != "" && pyParent a.path != "." then
        some (pyParent a.path, a.path)
      else none)

/-- The keys of `dir_files` in insertion order. -/
def dirsInOrder (activities : List Activity) : List String :=
  dedupFirst ((dirPairs activities).map Prod.fst)

/-- The distinct members of `dir_files[d]` (a Python `set`; listed here in
first-insertion order, which is irrelevant after `sorted`). -/
def dirFiles (activities : List Activity) (d : String) : List String :=
  dedupFirst ((dirPairs activities).filterMap
    (fun pr => if pr.1 == d then some pr.2 else none))

/-- The description f-string of a pattern record (`memory-learner.py:109`). -/
def patternDescription (count : Nat) (directory : String) : String :=
  "Multiple related files (" ++ toString count ++ ") edited in \x27" ++
    directory ++ "\x27, indicating tightly coupled components"

/-- The pattern record appended for a directory with 3+ distinct touched
files (`memory-learner.py:107-113`); 0.5 is `5/10`. -/
def patRecord (today : String) (activities : List Activity) (d : String) :
    Learning :=
  { type := "pattern"
    description := patternDescription (dirFiles activities d).length d
    confidence := 5/10
    date := today
    files := sortStrings (dirFiles activities d)
    source := "activity-log" }

/-- `detect_related_patterns` (`memory-learner.py:92-116`, duplicated
verbatim in `memory-summarize.py:230-253`). -/
def detect_related_patterns (today : String) (activities : List Activity) :
    List Learning :=
  ((dirsInOrder activities).filter
      (fun d => decide (3 ≤ (dirFiles activities d).length))).map
    (patRecord today activities)

end MemoryLearner

/-- Model of Python `s[n:]` (drop the first `n` characters). -/
def pyDrop (n : Nat) (s : String) : String := ⟨s.data.drop n⟩

/-- Left-to-right non-overlapping replacement of every occurrence of `needle`
(model of Python `str.replace`; fuelled by the haystack length, which bounds
the recursion).  Callers never pass an empty `needle`. -/
def replaceAllAux (needle repl : List Char) : Nat → List Char → List Char
  | _, [] => []
  | 0, hay => hay
  | fuel + 1, a :: as =>
    if isPfx needle (a :: as) then
      repl ++ replaceAllAux needle repl fuel ((a :: as).drop needle.length)
    else a :: replaceAllAux needle repl fuel as

/-- Model of Python `s.replace(needle, repl)` for nonempty `needle`. -/
def replaceAll (s needle repl : String) : String :=
  if needle.data.isEmpty then s
  else ⟨replaceAllAux needle.data repl.data s.data.length s.data⟩

namespace MemorySummarize

/-- `update_session_end_timestamp` (`memory-summarize.py:32-43`): if today's
daily log exists (`none` models a missing file), append a
"- `HH:MM:SS` - Session ended" activity entry.  The source performs the
append unconditionally: it contains no check for an existing marker. -/
def update_session_end_timestamp (timestamp : String) (log : Option String) :
    Option String :=
  match log with
  | none => none
  | some content => some (content ++ "- \x60" ++ timestamp ++ "\x60 - Session ended\n")

/-- The `section_map` dict of `propagate_learnings_to_memory`
(`memory-summarize.py:390-395`), as lookup. -/
def section_map (t : String) : Option String :=
  if t == "decision" then some "## Key Decisions"
  else if t == "issue" then some "## Known Issues & Workarounds"
  else if t == "pattern" then some "## Patterns & Conventions"
  else if t == "correction" then some "## Patterns & Conventions"
  else none

/-- The `placeholders` dict (`memory-summarize.py:398-402`); `""` models a
missing key (`placeholders.get(section_header, '')`). -/
def placeholderFor (sectionHeader : String) : String :=
  if sectionHeader == "## Key Decisions" then "*No decisions recorded yet.*"
  else if sectionHeader == "## Known Issues & Workarounds" then
    "*No known issues documented yet.*"
  else if sectionHeader == "## Patterns & Conventions" then
    "*Project-specific patterns will be documented here.*"
  else ""

/-- Leftmost match position of `re.search(r'\n## |\n---', rest)`
(both alternatives have length 4; the leftmost occurrence wins). -/
def findNextSectionIdx (rest : String) : Option Nat :=
  match firstIdx "\n## ".data rest.data, firstIdx "\n---".data rest.data with
  | some i, some j => some (min i j)
  | some i, none => some i
  | none, some j => some j
  | none, none => none

/-- The else-branch of the insertion (`memory-summarize.py:433-444`): place
`'\n' + entry` before the next section header / `---` marker after
`section_header`, or at the end of the document.  The caller has checked that
`section_header` occurs, so the `none` case is unreachable. -/
def insertEntryIntoSection (sectionHeader entry content : String) : String :=
  match firstIdx sectionHeader.data content.data with
  | none => content
  | some i =>
    let sectionStart := i + sectionHeader.length
    let rest := pyDrop sectionStart content
    let insertPos :=
      match findNextSectionIdx rest with
      | some j => sectionStart + j
      | none => content.length
    pyTake insertPos content ++ "\n" ++ entry ++ pyDrop insertPos content

/-- The body of the `for learning in learnings` loop of
`propagate_learnings_to_memory` (`memory-summarize.py:406-446`), as one step
of a fold over the state `(memory_content, modified)`.  The record's
`confidence`/`type`/`description`/`date` fields are always present as the
extractors build them, so `dict.get` defaults do not arise. -/
def propagateStep (st : String × Bool) (learning : Learning) : String × Bool :=
  let memory_content := st.1
  if learning.confidence ≤ 7/10 then st
  else if learning.description == "" then st
  else
    match section_map learning.type with
    | none => st
    | some section_header =>
      if containsSubstr learning.description memory_content then st
      else
        let entry := "- [" ++ learning.date ++ "] " ++ learning.description
        if containsSubstr section_header memory_content then
          let placeholder := placeholderFor section_header
          let newContent :=
            if placeholder != "" && containsSubstr placeholder memory_content then
              replaceAll memory_content placeholder entry
            else insertEntryIntoSection section_header entry memory_content
          (newContent, true)
        else st

/-- `propagate_learnings_to_memory` (`memory-summarize.py:367-451`), as the
in-memory transformation of `MEMORY.md`'s content by the loaded learnings
list.  The second component is the `modified` flag: the file is rewritten
if and only if it is `true`. -/
def propagate_learnings_to_memory (learnings : List Learning)
    (memory_content : String) : String × Bool :=
  learnings.foldl propagateStep (memory_content, false)

/-- `len('\n'.join(lines).encode('utf-8'))`: the byte size of the document
whose lines are `lines`. -/
def byteSize (lines : List String) : Nat :=
  (joinWith "\n" lines).utf8ByteSize

/-- The section scan of one `cap_memory_md_size` iteration
(`memory-summarize.py:478-493`): every `## `-headed section together with the
indices of its `- ` bullet lines, in document order (also sections whose index
list is empty; the source keeps only the nonempty ones, see `trimStep`).
`i` is the index of the next line, `cur` the section being scanned. -/
def scanSections : Nat → Option (String × List Nat) → List String →
    List (String × List Nat)
  | _, none, [] => []
  | _, some s, [] => [s]
  | i, cur, line :: rest =>
    if pyStartsWith "## " line then
      (match cur with
       | none => scanSections (i + 1) (some (line, [])) rest
       | some s => s :: scanSections (i + 1) (some (line, [])) rest)
    else if pyStartsWith "- " line then
      match cur with
      | some (h, idxs) => scanSections (i + 1) (some (h, idxs ++ [i])) rest
      | none => scanSections (i + 1) none rest
    else scanSections (i + 1) cur rest

/-- All sections of a document with their bullet-line indices. -/
def allSections (lines : List String) : List (String × List Nat) :=
  scanSections 0 none lines

/-- `sections.sort(key=lambda x: len(x[1]), reverse=True)` followed by taking
`sections[0]`: the first section (in document order) with the most bullets —
Python's sort is stable, so ties keep document order. -/
def pickLongest (sections : List (String × List Nat)) :
    Option (String × List Nat) :=
  match sections with
  | [] => none
  | s :: rest =>
    some (rest.foldl (fun b t => if b.2.length < t.2.length then t else b) s)

/-- One iteration of the trimming loop (`memory-summarize.py:474-504`):
remove the oldest (first) bullet of the section with the most bullets,
provided it has more than one (`len(indices) > 1`); `none` when nothing was
trimmed (`trimmed = False`, which breaks the loop). -/
def trimStep (lines : List String) : Option (List String) :=
  match pickLongest ((allSections lines).filter (fun s => !s.2.isEmpty)) with
  | none => none
  | some (_, []) => none
  | some (_, [_]) => none
  | some (_, i :: _ :: _) => some (lines.eraseIdx i)

/-- The `while` loop of `cap_memory_md_size`: up to `fuel` iterations
(`max_iterations = 50` in the source; `iteration < max_iterations` is exactly
"fuel left").  Returns the final lines and the remaining fuel, `0` meaning
the safety guard was exhausted. -/
def capLoopAux (max_bytes : Nat) : Nat → List String → List String × Nat
  | 0, lines => (lines, 0)
  | fuel + 1, lines =>
    if byteSize lines ≤ max_bytes then (lines, fuel + 1)
    else
      match trimStep lines with
      | none => (lines, fuel + 1)
      | some lines2 => capLoopAux max_bytes fuel lines2

/-- `cap_memory_md_size` (`memory-summarize.py:454-509`) on the document's
line list (`content.split('\n')`; the source re-joins with `'\n'.join`, a
bijection between documents and their line lists).  The default cap is
`max_bytes = 4096`. -/
def cap_memory_md_size (max_bytes : Nat) (lines : List String) : List String :=
  if byteSize lines ≤ max_bytes then lines
  else (capLoopAux max_bytes 50 lines).1

/-- `'0' ≤ c ≤ '9'` (the ASCII digits accepted by the model's
`strptime('%Y-%m-%d')`; CPython's `\d` would also accept Unicode digits,
which the log-file names never contain). -/
def isDigitChar (c : Char) : Bool := '0' ≤ c && c ≤ '9'

/-- Numeric value of a digit string. -/
def digitsVal (l : List Char) : Nat :=
  l.foldl (fun n c => n * 10 + (c.toNat - 48)) 0

/-- Gregorian leap-year rule (as validated by `datetime.strptime`). -/
def isLeapYear (y : Nat) : Bool :=
  y % 4 == 0 && (y % 100 != 0 || y % 400 == 0)

/-- Days in a month (as validated by `datetime.strptime`). -/
def daysInMonth (y m : Nat) : Nat :=
  if m == 2 then (if isLeapYear y then 29 else 28)
  else if m == 4 || m == 6 || m == 9 || m == 11 then 30
  else 31

/-- An exactly-`len`-digit field. -/
def parseField (len : Nat) (s : String) : Option Nat :=
  if s.length == len && s.data.all isDigitChar then some (digitsVal s.data)
  else none

/-- Model of `datetime.strptime(stem, '%Y-%m-%d')` restricted to the
zero-padded `YYYY-MM-DD` shape that `strftime('%Y-%m-%d')` generates for the
log files (strptime itself would also accept unpadded fields); calendar
validity (month range, day range incl. leap years, year ≥ 1) is checked as
strptime does. -/
def strptimeYmd (stem : String) : Option (Nat × Nat × Nat) :=
  match splitChar '-' stem with
  | [ys, ms, ds] =>
    match parseField 4 ys, parseField 2 ms, parseField 2 ds with
    | some y, some m, some d =>
      if 1 ≤ y && 1 ≤ m && m ≤ 12 && 1 ≤ d && d ≤ daysInMonth y m then
        some (y, m, d)
      else none
    | _, _, _ => none
  | _ => none

/-- Day number of a civil date (days since 0000-03-01, the standard
era/year-of-era computation); strictly monotone in the date, so date
comparisons in `archive_old_logs` are faithfully mirrored. -/
def daysFromCivil (y m d : Nat) : Nat :=
  let y1 := if m ≤ 2 then y - 1 else y
  let era := y1 / 400
  let yoe := y1 % 400
  let mp := if 2 < m then m - 3 else m + 9
  let doy := (153 * mp + 2) / 5 + d - 1
  let doe := yoe * 365 + yoe / 4 - yoe / 100 + doy
  era * 146097 + doe

/-- `pathlib.Path(name).stem` for the dot-containing, non-dotfile names the
archiver's glob produces. -/
def pathStem (name : String) : String :=
  let parts := splitChar '.' name
  if parts.length ≤ 1 then name else joinWith "." parts.dropLast

/-- Whether `daily_dir.glob('*.md')` yields the file: name ends in `.md` and
(glob never matches a leading dot) is not a dotfile. -/
def globMatchesMd (name : String) : Bool :=
  pyEndsWith ".md" name && !(pyStartsWith "." name)

/-- Zero-padded decimal rendering. -/
def padZeros (w n : Nat) : String :=
  let s := toString n
  String.mk (List.replicate (w - s.length) '0') ++ s

/-- `file_date.strftime('%Y-%m')`, the archive bucket (years below 1000,
which the 4-digit parse can only produce zero-padded and real logs never
carry, would render unpadded in CPython; the model pads). -/
def monthBucket (y m : Nat) : String := padZeros 4 y ++ "-" ++ padZeros 2 m

/-- Eligibility of one daily-log file for archiving, with the bucket it goes
to.  `nowSec` is `datetime.now()` in seconds on `daysFromCivil`'s epoch; the
file's date is its midnight, so `file_date < now - timedelta(days=14)`
is `fileDays * 86400 < nowSec - 14 * 86400`, written addition-side for `Nat`. -/
def eligibleBucket (nowSec : Nat) (name : String) : Option String :=
  if globMatchesMd name then
    match strptimeYmd (pathStem name) with
    | some (y, m, d) =>
      if daysFromCivil y m d * 86400 + 14 * 86400 < nowSec then
        some (monthBucket y m)
      else none
    | none => none
  else none

/-- The slice of the file system `archive_old_logs` touches: the file names
under `daily/` and the `(YYYY-MM bucket, file name)` pairs under `archive/`. -/
structure MemFS where
  daily : List String
  archive : List (String × String)

/-- `archive_old_logs` (`memory-summarize.py:512-544`): every eligible daily
log is moved into its month bucket (the model's `shutil.move` and `mkdir`
always succeed; the source logs a warning and keeps the file on an OS error). -/
def archive_old_logs (nowSec : Nat) (fs : MemFS) : MemFS :=
  { daily := fs.daily.filter (fun n => (eligibleBucket nowSec n).isNone)
    archive := fs.archive ++
      fs.daily.filterMap (fun n => (eligibleBucket nowSec n).map (fun b => (b, n))) }

end MemorySummarize

namespace MemoryLogger

/-- The `tool_input` dict of a hook payload, with the string-valued fields
the logger consumes (`file_path`, `notebook_path`, `old_string`,
`new_string`, `content`, `command`, `query`, `url`, `prompt`, `exit_code`). -/
structure ToolInput where
  fields : List (String × String)

/-- `tool_input.get(k) or ''` / `tool_input.get(k, '')`: the value, or `""`
when the key is absent. -/
def ToolInput.getS (ti : ToolInput) (k : String) : String :=
  match ti.fields.lookup k with
  | some v => v
  | none => ""

/-- `k in tool_input`. -/
def ToolInput.hasKey (ti : ToolInput) (k : String) : Bool :=
  (ti.fields.lookup k).isSome

/-- The parsed stdin payload: `tool_name` and `tool_input`. -/
structure HookData where
  tool_name : String
  tool_input : ToolInput

/-- The ambient state the logger touches: today's clock and date strings, the
relativization `get_relative_path` performs against the project root
(abstracted as a function — it returns the path unchanged when outside the
root or on error), the daily log's content (`none`: the file does not exist),
and whether the file system refuses writes (the unguarded `mkdir`/`open`
calls of `append_to_daily_log`, e.g. a read-only directory). -/
structure World where
  timestamp : String
  today : String
  weekday : String
  relPath : String → String
  dailyLog : Option String
  ioFails : Bool

/-- The template skeleton `append_to_daily_log` writes on first use
(`memory-logger.py:72-97`). -/
def dailyHeader (today weekday : String) : String :=
  "# " ++ today ++ " (" ++ weekday ++ ") - Session Log\n\n## Session Summary\n\n*Session in progress...*\n\n## Changes Made\n\n| File | Change | Reason |\n|------|--------|--------|\n\n## Decisions Made\n\n*Recording decisions...*\n\n## Issues Encountered\n\n*No issues recorded yet.*\n\n## TODO / Follow-up\n\n- [ ] Review changes made today\n\n## Activity Log\n\n"

/-- `append_to_daily_log` (`memory-logger.py:61-103`): create the log with its
template on first write, then append the entry plus a newline.  The function
has no exception handler: when the file system refuses the write it raises
(`Except.error`), which its callers also do not catch. -/
def append_to_daily_log (w : World) (entry : String) : Except String World :=
  if w.ioFails then .error "OSError"
  else
    let base :=
      match w.dailyLog with
      | none => dailyHeader w.today w.weekday
      | some c => c
    .ok { w with dailyLog := some (base ++ entry ++ "\n") }

/-- The `skip_patterns` denylist of `should_log_file`
(`memory-logger.py:36-51`). -/
def skip_patterns : List String :=
  ["node_modules/", ".git/", "__pycache__/", ".pyc", ".log", ".tmp",
   ".cache/", "dist/", "build/", ".next/", ".claude/memory/",
   "package-lock.json", "yarn.lock", "pnpm-lock.yaml"]

/-- `should_log_file` (`memory-logger.py:33-58`): a case-insensitive
substring test of each denylist pattern against the whole path. -/
def should_log_file (file_path : String) : Bool :=
  let file_lower := pyLower file_path
  !(skip_patterns.any (fun pattern => containsSubstr pattern file_lower))

/-- `log_file_change` (`memory-logger.py:106-128`): drop denylisted or
pathless payloads, otherwise format an `edited:`/`created/updated:` entry
and append it. -/
def log_file_change (w : World) (ti : ToolInput) : Except String World :=
  let file_path := pyOr (ti.getS "file_path") (ti.getS "notebook_path")
  if file_path == "" || !(should_log_file file_path) then .ok w
  else
    let relative_path := w.relPath file_path
    if ti.hasKey "old_string" || ti.hasKey "new_string" then
      let ns := ti.getS "new_string"
      let snippet := pyTake 60 ns
      let suffix := if 60 < ns.length then "..." else ""
      append_to_daily_log w
        ("- \x60" ++ w.timestamp ++ "\x60 - edited: \x60" ++ relative_path ++
          "\x60 | \"" ++ snippet ++ suffix ++ "\"")
    else
      let content := ti.getS "content"
      append_to_daily_log w
        ("- \x60" ++ w.timestamp ++ "\x60 - created/updated: \x60" ++
          relative_path ++ "\x60 | ~" ++ toString content.length ++ " chars")

/-- The `skip_patterns` denylist of `should_log_read`
(`memory-logger.py:133-151`). -/
def read_skip_patterns : List String :=
  [".claude/", "node_modules/", "__pycache__/", ".git/", "package-lock.json",
   "yarn.lock", "pnpm-lock.yaml", "bun.lockb", "package.json", "tsconfig",
   ".eslintrc", ".prettierrc", ".babelrc", "jest.config", "vite.config",
   "webpack.config", ".env"]

/-- `should_log_read` (`memory-logger.py:131-158`). -/
def should_log_read (file_path : String) : Bool :=
  let file_lower := pyLower file_path
  !(read_skip_patterns.any (fun pattern => containsSubstr pattern file_lower))

/-- `log_web_search` (`memory-logger.py:161-168`). -/
def log_web_search (w : World) (ti : ToolInput) : Except String World :=
  let query := ti.getS "query"
  if query == "" then .ok w
  else
    append_to_daily_log w
      ("- \x60" ++ w.timestamp ++ "\x60 - searched: \"" ++ query ++ "\"")

/-- `log_web_fetch` (`memory-logger.py:171-180`). -/
def log_web_fetch (w : World) (ti : ToolInput) : Except String World :=
  let url := ti.getS "url"
  if url == "" then .ok w
  else
    let prompt := ti.getS "prompt"
    let prompt_display :=
      if prompt == "" then ""
      else pyTake 60 prompt ++ (if 60 < prompt.length then "..." else "")
    append_to_daily_log w
      ("- \x60" ++ w.timestamp ++ "\x60 - fetched: " ++ url ++ " | \"" ++
        prompt_display ++ "\"")

/-- `log_file_read` (`memory-logger.py:183-191`). -/
def log_file_read (w : World) (ti : ToolInput) : Except String World :=
  let file_path := ti.getS "file_path"
  if file_path == "" || !(should_log_read file_path) then .ok w
  else
    append_to_daily_log w
      ("- \x60" ++ w.timestamp ++ "\x60 - read: \x60" ++ w.relPath file_path ++ "\x60")

/-- `log_bash_command` (`memory-logger.py:194-215`). -/
def log_bash_command (w : World) (ti : ToolInput) : Except String World :=
  let command := ti.getS "command"
  if command == "" then .ok w
  else if containsSubstr ".claude/memory/" command then .ok w
  else
    let cmd_display := pyTake 80 command
    let suffix := if 80 < command.length then "..." else ""
    let entry := "- \x60" ++ w.timestamp ++ "\x60 - ran: \x60" ++ cmd_display ++
      suffix ++ "\x60"
    let entry :=
      match ti.fields.lookup "exit_code" with
      | some ec => entry ++ " | exit:" ++ ec
      | none => entry
    append_to_daily_log w entry

/-- `main` of `memory-logger.py` (`memory-logger.py:218-252`).  `stdin = none`
models a `json.load` failure — the ONLY exception the function catches (its
`try` block wraps just the parse); every exception raised by the routed
logging calls below it propagates to the host. -/
def main (w : World) (stdin : Option HookData) : Except String World :=
  match stdin with
  | none => .ok w
  | some hook_data =>
    let ti := hook_data.tool_input
    if ti.fields.isEmpty then .ok w
    else
      let tn := hook_data.tool_name
      if tn == "WebSearch" ||
          (tn == "" && ti.hasKey "query" && !ti.hasKey "url") then
        log_web_search w ti
      else if tn == "WebFetch" ||
          (tn == "" && ti.hasKey "url" && ti.hasKey "prompt") then
        log_web_fetch w ti
      else if tn == "Read" ||
          (tn == "" && ti.hasKey "file_path" && !ti.hasKey "old_string" &&
            !ti.hasKey "command" && !ti.hasKey "content") then
        log_file_read w ti
      else if ti.hasKey "command" then log_bash_command w ti
      else
        let file_path := pyOr (ti.getS "file_path") (ti.getS "notebook_path")
        if file_path == "" then .ok w
        else log_file_change w ti

end MemoryLogger

namespace Ooxml

/-- `"[Content_Types].xml"`, the entry OOXML requires first. -/
def ctName : String := "[Content_Types].xml"

/-- `pathlib.Path(p).name`: the last path component. -/
def baseName (p : String) : String := (splitChar '/' p).getLastD ""

/-- A directory tree / archive as relative POSIX paths with byte contents. -/
abbrev FileSet : Type := List (String × List Nat)

/-- `sorted(input_path.rglob('*'))` restricted to files: PurePath comparison
on POSIX orders by the path string (code-point lexicographic). -/
def sortByPath (files : FileSet) : FileSet :=
  files.insertionSort (fun a b => strLe a.1 b.1 = true)

/-- `pack` (`pack.py:9-34`): `none` models `sys.exit(1)` when the top-level
`[Content_Types].xml` is missing; otherwise the archive lists
`[Content_Types].xml` first and then every other file in sorted path order —
excluding every file whose BASE name is `[Content_Types].xml`
(`file_path.name != "[Content_Types].xml"`), including ones in
subdirectories. -/
def pack (files : FileSet) : Option FileSet :=
  match files.lookup ctName with
  | none => none
  | some ct =>
    some ((ctName, ct) ::
      (sortByPath files).filter (fun e => baseName e.1 != ctName))

/-- `unpack` (`unpack.py:9-23`): `extractall` writes the entries in order,
later duplicates overwriting earlier ones, so the content the extracted tree
holds at path `p` is the last archive entry named `p`. -/
def unpack (archive : FileSet) (p : String) : Option (List Nat) :=
  archive.reverse.lookup p

end Ooxml

/-! Concrete inputs used by witnesses and counterexamples. -/

/-- The spec's example session: `src/a.py` edited three times, `src/b.py`
once. -/
def actsCorrEx : List Activity :=
  [⟨"09:00", "edited", "src/a.py", ""⟩, ⟨"09:05", "edited", "src/a.py", ""⟩,
   ⟨"09:10", "edited", "src/a.py", ""⟩, ⟨"09:15", "edited", "src/b.py", ""⟩]

/-- A session touching three distinct files of `src/` and one top-level file. -/
def actsPatEx : List Activity :=
  [⟨"09:00", "edited", "src/a.py", ""⟩, ⟨"09:05", "created", "src/b.py", ""⟩,
   ⟨"09:10", "edited", "src/c.py", ""⟩, ⟨"09:15", "edited", "README.md", ""⟩,
   ⟨"09:20", "edited", "src/a.py", ""⟩]

/-- A memory document whose Key Decisions section already holds a bullet. -/
def memEx : String :=
  "# Project Memory\n\n## Key Decisions\n\n- [2026-10-11] Use SQLite for local cache\n\n## Known Issues & Workarounds\n\n*No known issues documented yet.*\n\n## Patterns & Conventions\n\n*Project-specific patterns will be documented here.*\n"

/-- A learnings store whose single high-confidence record's description is
already present in `memEx`. -/
def learnEx : List Learning :=
  [{ type := "decision", description := "Use SQLite for local cache",
     confidence := 9/10, date := "2026-10-12", files := [], source := "decisions-section" }]

/-- `datetime.now()` for the archiver example: 2026-10-12, 01:00:00. -/
def nowEx : Nat := MemorySummarize.daysFromCivil 2026 10 12 * 86400 + 3600

/-- A daily/ directory with one stale log, one fresh log, and one file the
glob skips. -/
def fsEx : MemorySummarize.MemFS :=
  { daily := ["2026-09-01.md", "2026-10-10.md", "notes.txt"], archive := [] }

/-- A daily log that already carries the session-end marker. -/
def logC1Ex : String :=
  "# 2026-10-12 (Sunday) - Session Log\n\n## Activity Log\n\n- \x6009:00:00\x60 - edited: \x60src/a.py\x60\n- \x6010:00:00\x60 - Session ended\n"

/-- A file system that refuses writes, for the logger. -/
def wIOEx : MemoryLogger.World :=
  { timestamp := "10:00:00", today := "2026-10-12", weekday := "Sunday",
    relPath := fun s => s, dailyLog := some "", ioFails := true }

/-- A healthy world with an existing daily log. -/
def wOKEx : MemoryLogger.World :=
  { timestamp := "10:00:00", today := "2026-10-12", weekday := "Sunday",
    relPath := fun s => s, dailyLog := some "# log\n", ioFails := false }

/-- An Edit payload for `src/app.py`. -/
def hdEditEx : MemoryLogger.HookData :=
  { tool_name := "",
    tool_input := ⟨[("file_path", "src/app.py"), ("old_string", "a"),
      ("new_string", "b")]⟩ }

/-- An Edit payload under a directory named `rebuild/`, whose path therefore
contains the denylist pattern `build/`. -/
def tiRebuildEx : MemoryLogger.ToolInput :=
  ⟨[("file_path", "src/rebuild/main.py"), ("old_string", "x"),
    ("new_string", "y")]⟩

/-- A tree with a top-level `[Content_Types].xml` and a second file of that
base name inside a subdirectory. -/
def filesCEx : Ooxml.FileSet :=
  [("[Content_Types].xml", [60]), ("sub/[Content_Types].xml", [1])]

/-- An ordinary OOXML tree. -/
def filesRTEx : Ooxml.FileSet :=
  [("ppt/slides/slide1.xml", [1, 2, 3]), ("[Content_Types].xml", [60, 61]),
   ("docProps/app.xml", [7])]

/-- A document over a 50-byte configured cap whose only section holds no
bullet at all: the eviction loop of `cap_memory_md_size` finds nothing to
trim and leaves it over the cap (the same shape overruns the default
4096-byte cap with a proportionally longer paragraph). -/
def linesC2Ex : List String :=
  ["## Known Issues & Workarounds",
   "A single explanatory paragraph, not a bullet, of well over fifty bytes."]

/-! Helper lemmas. -/

theorem mem_dedupFirstAux {seen l : List String} {a : String} :
    a ∈ dedupFirstAux seen l ↔ a ∈ l ∧ a ∉ seen := by
  induction l generalizing seen with
  | nil => simp [dedupFirstAux]
  | cons x xs ih =>
    by_cases hx : x ∈ seen
    · simp only [dedupFirstAux, if_pos hx, List.mem_cons, ih]
      constructor
      · exact fun ⟨h1, h2⟩ => ⟨Or.inr h1, h2⟩
      · rintro ⟨rfl | h1, h2⟩
        · exact absurd hx h2
        · exact ⟨h1, h2⟩
    · simp only [dedupFirstAux, if_neg hx, List.mem_cons, ih]
      constructor
      · rintro (rfl | ⟨h1, h2⟩)
        · exact ⟨Or.inl rfl, hx⟩
        · exact ⟨Or.inr h1, fun hs => h2 (Or.inr hs)⟩
      · rintro ⟨rfl | h1, h2⟩
        · exact Or.inl rfl
        · by_cases hax : a = x
          · exact Or.inl hax
          · exact Or.inr ⟨h1, fun hs => hs.elim hax h2⟩

theorem nodup_dedupFirstAux (seen l : List String) :
    (dedupFirstAux seen l).Nodup := by
  induction l generalizing seen with
  | nil => simp [dedupFirstAux]
  | cons x xs ih =>
    by_cases hx : x ∈ seen
    · simp only [dedupFirstAux, if_pos hx]
      exact ih seen
    · simp only [dedupFirstAux, if_neg hx]
      refine List.nodup_cons.mpr ⟨fun hmem => ?_, ih (x :: seen)⟩
      exact (mem_dedupFirstAux.mp hmem).2 (List.mem_cons_self x seen)

theorem mem_dedupFirst {l : List String} {a : String} :
    a ∈ dedupFirst l ↔ a ∈ l := by
  simp [dedupFirst, mem_dedupFirstAux]

theorem nodup_dedupFirst (l : List String) : (dedupFirst l).Nodup :=
  nodup_dedupFirstAux [] l

theorem countOcc_cons (x : String) (xs : List String) (p : String) :
    countOcc (x :: xs) p = (if x == p then 1 else 0) + countOcc xs p := by
  simp only [countOcc, List.filter_cons]
  by_cases h : (x == p) = true
  · simp [h, Nat.add_comm]
  · simp [h]

theorem countOcc_pos_iff_mem {l : List String} {p : String} :
    0 < countOcc l p ↔ p ∈ l := by
  induction l with
  | nil => simp [countOcc]
  | cons x xs ih =>
    rw [countOcc_cons, List.mem_cons]
    by_cases h : (x == p) = true
    · rw [if_pos h]
      have hpx : p = x := (beq_iff_eq.mp h).symm
      constructor
      · intro _
        exact Or.inl hpx
      · intro _
        omega
    · rw [if_neg h]
      have hne : ¬ p = x := fun e => h (beq_iff_eq.mpr e.symm)
      simp [hne, ih]

theorem filter_eq_nil_of_not_mem {l : List String} {p : String}
    (hp : p ∉ l) : l.filter (fun q => q == p) = [] := by
  induction l with
  | nil => rfl
  | cons x xs ih =>
    have hb : ¬(x == p) = true := by
      intro e
      exact hp (by rw [← beq_iff_eq.mp e]; exact List.mem_cons_self x xs)
    rw [List.filter_cons, if_neg hb]
    exact ih (fun h => hp (List.mem_cons_of_mem x h))

theorem filter_eq_single_of_nodup {l : List String} {p : String}
    (hn : l.Nodup) (hp : p ∈ l) : l.filter (fun q => q == p) = [p] := by
  induction l with
  | nil => cases hp
  | cons x xs ih =>
    have hx : x ∉ xs := (List.nodup_cons.mp hn).1
    rcases List.mem_cons.mp hp with h | h
    · have hb : (x == p) = true := beq_iff_eq.mpr h.symm
      rw [List.filter_cons, if_pos hb, filter_eq_nil_of_not_mem (h.symm ▸ hx)]
      rw [h]
    · have hb : ¬(x == p) = true := by
        intro e
        refine hx ?_
        rw [beq_iff_eq.mp e]
        exact h
      rw [List.filter_cons, if_neg hb]
      exact ih (List.nodup_cons.mp hn).2 h

theorem beq_singleton (q p : String) :
    (([q] : List String) == [p]) = (q == p) := by
  by_cases h : q = p
  · subst h
    simp
  · have : ([q] : List String) ≠ [p] := by simpa using h
    simp [h, this]

theorem detect_corrections_filter (today p : String) (acts : List Activity) :
    (MemoryLearner.detect_corrections today acts).filter (fun r => r.files == [p]) =
      (((dedupFirst (MemoryLearner.editPaths acts)).filter
          (fun q => decide (3 ≤ countOcc (MemoryLearner.editPaths acts) q))).filter
        (fun q => q == p)).map (MemoryLearner.corrRecord today acts) := by
  rw [MemoryLearner.detect_corrections, List.filter_map]
  congr 1
  apply List.filter_congr
  intro q _
  show ((MemoryLearner.corrRecord today acts q).files == [p]) = (q == p)
  exact beq_singleton q p

theorem detect_corrections_count (today p : String) (acts : List Activity) :
    ((MemoryLearner.detect_corrections today acts).filter
        (fun r => r.files == [p])).length
      = if 3 ≤ countOcc (MemoryLearner.editPaths acts) p then 1 else 0 := by
  rw [detect_corrections_filter, List.length_map]
  by_cases h : 3 ≤ countOcc (MemoryLearner.editPaths acts) p
  · rw [if_pos h]
    have hmem : p ∈ dedupFirst (MemoryLearner.editPaths acts) :=
      mem_dedupFirst.mpr (countOcc_pos_iff_mem.mp (by omega))
    have hmem2 : p ∈ (dedupFirst (MemoryLearner.editPaths acts)).filter
        (fun q => decide (3 ≤ countOcc (MemoryLearner.editPaths acts) q)) :=
      List.mem_filter.mpr ⟨hmem, by simpa using h⟩
    have hnd := (nodup_dedupFirst (MemoryLearner.editPaths acts)).filter
        (fun q => decide (3 ≤ countOcc (MemoryLearner.editPaths acts) q))
    rw [filter_eq_single_of_nodup hnd hmem2]
    rfl
  · rw [if_neg h]
    have hnot : p ∉ (dedupFirst (MemoryLearner.editPaths acts)).filter
        (fun q => decide (3 ≤ countOcc (MemoryLearner.editPaths acts) q)) := by
      intro hmem
      exact h (by simpa using (List.mem_filter.mp hmem).2)
    rw [filter_eq_nil_of_not_mem hnot]
    rfl

/-- C3: for every activity list, a path occurring in ≥ 3 edit-type entries
(`edited` / `created/updated` / `updated`, with a nonempty path) gets exactly
one record whose `files` is the singleton of that path, and a path occurring
in < 3 such entries gets none; every emitted record has type `correction` and
confidence 0.6 (= 6/10). -/
theorem detect_corrections_spec (today p : String) (acts : List Activity) :
    ((MemoryLearner.detect_corrections today acts).filter
        (fun r => r.files == [p])).length
      = (if 3 ≤ countOcc (MemoryLearner.editPaths acts) p then 1 else 0)
    ∧ (MemoryLearner.detect_corrections today acts).all
        (fun r => r.type == "correction" && decide (r.confidence = 6/10)) = true := by
  refine ⟨detect_corrections_count today p acts, ?_⟩
  rw [List.all_eq_true]
  intro r hr
  rw [MemoryLearner.detect_corrections] at hr
  rcases List.mem_map.mp hr with ⟨q, _, rfl⟩
  simp [MemoryLearner.corrRecord]

/-- Witness for C3 at the spec's example session (three edits of
`src/a.py`, one of `src/b.py`): exactly one correction record for
`src/a.py`, none for `src/b.py`. -/
theorem detect_corrections_spec_witness :
    ((MemoryLearner.detect_corrections "2026-10-12" actsCorrEx).filter
        (fun r => r.files == ["src/a.py"])).length = 1
    ∧ ((MemoryLearner.detect_corrections "2026-10-12" actsCorrEx).filter
        (fun r => r.files == ["src/b.py"])).length = 0 := by
  constructor
  · rw [(detect_corrections_spec "2026-10-12" "src/a.py" actsCorrEx).1]
    decide
  · rw [(detect_corrections_spec "2026-10-12" "src/b.py" actsCorrEx).1]
    decide

theorem mem_dirPairs {acts : List Activity} {pr : String × String}
    (h : pr ∈ MemoryLearner.dirPairs acts) : pr.1 = pyParent pr.2 := by
  rw [MemoryLearner.dirPairs] at h
  rcases List.mem_filterMap.mp h with ⟨a, _, ha⟩
  by_cases hc : (pyParent a.path != "" && pyParent a.path != ".") = true
  · rw [if_pos hc] at ha
    cases ha
    rfl
  · rw [if_neg hc] at ha
    cases ha

theorem mem_dirFiles_parent {acts : List Activity} {d x : String}
    (h : x ∈ MemoryLearner.dirFiles acts d) : pyParent x = d := by
  rw [MemoryLearner.dirFiles] at h
  rcases List.mem_filterMap.mp (mem_dedupFirst.mp h) with ⟨pr, hpr, hif⟩
  by_cases hc : (pr.1 == d) = true
  · rw [if_pos hc] at hif
    cases hif
    rw [← mem_dirPairs hpr]
    exact beq_iff_eq.mp hc
  · rw [if_neg hc] at hif
    cases hif

theorem dirFiles_sub_dirsInOrder {acts : List Activity} {d : String}
    (h : MemoryLearner.dirFiles acts d ≠ []) :
    d ∈ MemoryLearner.dirsInOrder acts := by
  obtain ⟨x, hx⟩ := List.exists_mem_of_ne_nil _ h
  rw [MemoryLearner.dirFiles] at hx
  rcases List.mem_filterMap.mp (mem_dedupFirst.mp hx) with ⟨pr, hpr, hif⟩
  by_cases hc : (pr.1 == d) = true
  · rw [MemoryLearner.dirsInOrder, mem_dedupFirst]
    rw [← beq_iff_eq.mp hc]
    exact List.mem_map_of_mem Prod.fst hpr
  · rw [if_neg hc] at hif
    cases hif

theorem nodup_dirsInOrder (acts : List Activity) :
    (MemoryLearner.dirsInOrder acts).Nodup := by
  rw [MemoryLearner.dirsInOrder]
  exact nodup_dedupFirst _

theorem sortStrings_perm (l : List String) : List.Perm (sortStrings l) l :=
  List.perm_insertionSort _ l

theorem sortStrings_length (l : List String) :
    (sortStrings l).length = l.length :=
  (sortStrings_perm l).length_eq

theorem mem_sortStrings {l : List String} {x : String} :
    x ∈ sortStrings l ↔ x ∈ l :=
  (sortStrings_perm l).mem_iff

theorem charListLe_total : ∀ as bs : List Char,
    charListLe as bs = true ∨ charListLe bs as = true := by
  intro as
  induction as with
  | nil => intro bs; exact Or.inl rfl
  | cons a as ih =>
    intro bs
    cases bs with
    | nil => exact Or.inr rfl
    | cons b bs =>
      rw [charListLe, charListLe]
      rcases Nat.lt_trichotomy a.toNat b.toNat with h | h | h
      · refine Or.inl ?_
        rw [if_pos h]
      · have hab : ¬ (a.toNat < b.toNat) := by omega
        have hba : ¬ (b.toNat < a.toNat) := by omega
        rw [if_neg hab, if_neg hba, if_neg hba, if_neg hab]
        exact ih bs
      · refine Or.inr ?_
        rw [if_pos h]

theorem charListLe_trans : ∀ as bs cs : List Char,
    charListLe as bs = true → charListLe bs cs = true →
    charListLe as cs = true := by
  intro as
  induction as with
  | nil => intro bs cs _ _; rfl
  | cons a as ih =>
    intro bs cs h1 h2
    cases bs with
    | nil =>
      rw [charListLe] at h1
      exact Bool.noConfusion h1
    | cons b bs =>
      cases cs with
      | nil =>
        rw [charListLe] at h2
        exact Bool.noConfusion h2
      | cons c cs =>
        rw [charListLe] at h1 h2 ⊢
        rcases Nat.lt_trichotomy a.toNat b.toNat with hab | hab | hab
        · rcases Nat.lt_trichotomy b.toNat c.toNat with hbc | hbc | hbc
          · rw [if_pos (by omega)]
          · rw [if_pos (by omega)]
          · rw [if_neg (by omega), if_pos hbc] at h2
            exact Bool.noConfusion h2
        · rw [if_neg (by omega), if_neg (by omega)] at h1
          rcases Nat.lt_trichotomy b.toNat c.toNat with hbc | hbc | hbc
          · rw [if_pos (by omega)]
          · rw [if_neg (by omega), if_neg (by omega)] at h2
            rw [if_neg (by omega), if_neg (by omega)]
            exact ih bs cs h1 h2
          · rw [if_neg (by omega), if_pos hbc] at h2
            exact Bool.noConfusion h2
        · rw [if_neg (by omega), if_pos hab] at h1
          exact Bool.noConfusion h1

theorem strLe_total (a b : String) : strLe a b = true ∨ strLe b a = true :=
  charListLe_total a.data b.data

theorem strLe_trans (a b c : String) :
    strLe a b = true → strLe b c = true → strLe a c = true :=
  charListLe_trans a.data b.data c.data

theorem sortStrings_sorted (l : List String) :
    List.Sorted (fun a b : String => strLe a b = true) (sortStrings l) :=
  @List.sorted_insertionSort String (fun a b => strLe a b = true) _
    ⟨strLe_total⟩ ⟨fun _ _ _ => strLe_trans _ _ _⟩ l

theorem dir_eq_of_sort_eq {acts : List Activity} {d d' : String}
    (h : sortStrings (MemoryLearner.dirFiles acts d')
        = sortStrings (MemoryLearner.dirFiles acts d))
    (hne : MemoryLearner.dirFiles acts d ≠ []) : d' = d := by
  obtain ⟨x, hxd⟩ := List.exists_mem_of_ne_nil _ hne
  have hx' : x ∈ MemoryLearner.dirFiles acts d' := by
    have hs : x ∈ sortStrings (MemoryLearner.dirFiles acts d) :=
      mem_sortStrings.mpr hxd
    rw [← h] at hs
    exact mem_sortStrings.mp hs
  rw [← mem_dirFiles_parent hx']
  exact mem_dirFiles_parent hxd

theorem detect_related_patterns_count (today d : String) (acts : List Activity) :
    ((MemoryLearner.detect_related_patterns today acts).filter
        (fun r => r.files == sortStrings (MemoryLearner.dirFiles acts d))).length
      = if 3 ≤ (MemoryLearner.dirFiles acts d).length then 1 else 0 := by
  rw [MemoryLearner.detect_related_patterns, List.filter_map, List.length_map]
  by_cases h : 3 ≤ (MemoryLearner.dirFiles acts d).length
  · rw [if_pos h]
    have hne : MemoryLearner.dirFiles acts d ≠ [] := by
      intro e
      rw [e] at h
      exact absurd h (by decide)
    have hcong : ∀ d' ∈ (MemoryLearner.dirsInOrder acts).filter
        (fun d' => decide (3 ≤ (MemoryLearner.dirFiles acts d').length)),
        ((fun r => r.files == sortStrings (MemoryLearner.dirFiles acts d)) ∘
          MemoryLearner.patRecord today acts) d' = (d' == d) := by
      intro d' _
      show (sortStrings (MemoryLearner.dirFiles acts d')
          == sortStrings (MemoryLearner.dirFiles acts d)) = (d' == d)
      by_cases e : d' = d
      · subst e
        simp
      · have hs : sortStrings (MemoryLearner.dirFiles acts d')
            ≠ sortStrings (MemoryLearner.dirFiles acts d) :=
          fun hc => e (dir_eq_of_sort_eq hc hne)
        simp [e, hs]
    rw [List.filter_congr hcong]
    have hmem : d ∈ (MemoryLearner.dirsInOrder acts).filter
        (fun d' => decide (3 ≤ (MemoryLearner.dirFiles acts d').length)) :=
      List.mem_filter.mpr ⟨dirFiles_sub_dirsInOrder hne, by simpa using h⟩
    have hnd := (nodup_dirsInOrder acts).filter
        (fun d' => decide (3 ≤ (MemoryLearner.dirFiles acts d').length))
    rw [filter_eq_single_of_nodup hnd hmem]
    rfl
  · rw [if_neg h]
    rw [List.filter_eq_nil_iff.mpr, List.length_nil]
    intro d' hd'
    have h3 : 3 ≤ (MemoryLearner.dirFiles acts d').length := by
      simpa using (List.mem_filter.mp hd').2
    show ¬ (sortStrings (MemoryLearner.dirFiles acts d')
        == sortStrings (MemoryLearner.dirFiles acts d)) = true
    intro hbeq
    have heq := beq_iff_eq.mp hbeq
    have hlen : (MemoryLearner.dirFiles acts d').length
        = (MemoryLearner.dirFiles acts d).length := by
      rw [← sortStrings_length, heq, sortStrings_length]
    omega

/-- C4: for every activity list and directory `d` (a nonempty Python parent
other than `"."`, as grouped by the code), if ≥ 3 distinct edited/created
paths have parent `d` then exactly one record carries the sorted list of
exactly those paths as its `files`, and if < 3 do then no record does; every
emitted record has type `pattern` and confidence 0.5 (= 5/10);
`sortStrings (dirFiles acts d)` is sorted, is a permutation of those distinct
paths, and the paths are distinct (`Nodup`). -/
theorem detect_related_patterns_spec (today d : String) (acts : List Activity) :
    ((MemoryLearner.detect_related_patterns today acts).filter
        (fun r => r.files == sortStrings (MemoryLearner.dirFiles acts d))).length
      = (if 3 ≤ (MemoryLearner.dirFiles acts d).length then 1 else 0)
    ∧ (MemoryLearner.detect_related_patterns today acts).all
        (fun r => r.type == "pattern" && decide (r.confidence = 5/10)) = true
    ∧ List.Sorted (fun a b : String => strLe a b = true)
        (sortStrings (MemoryLearner.dirFiles acts d))
    ∧ List.Perm (sortStrings (MemoryLearner.dirFiles acts d))
        (MemoryLearner.dirFiles acts d)
    ∧ (MemoryLearner.dirFiles acts d).Nodup := by
  refine ⟨detect_related_patterns_count today d acts, ?_,
    sortStrings_sorted _, sortStrings_perm _, ?_⟩
  · rw [List.all_eq_true]
    intro r hr
    rw [MemoryLearner.detect_related_patterns] at hr
    rcases List.mem_map.mp hr with ⟨q, _, rfl⟩
    simp [MemoryLearner.patRecord]
  · rw [MemoryLearner.dirFiles]
    exact nodup_dedupFirst _

/-- Witness for C4: in `actsPatEx`, directory `src` holds three distinct
touched files and gets exactly one pattern record listing them sorted. -/
theorem detect_related_patterns_spec_witness :
    ((MemoryLearner.detect_related_patterns "2026-10-12" actsPatEx).filter
        (fun r => r.files ==
          sortStrings (MemoryLearner.dirFiles actsPatEx "src"))).length = 1
    ∧ sortStrings (MemoryLearner.dirFiles actsPatEx "src")
        = ["src/a.py", "src/b.py", "src/c.py"] := by
  constructor
  · rw [(detect_related_patterns_spec "2026-10-12" "src" actsPatEx).1]
    decide
  · decide

theorem propagateStep_skip (st : String × Bool) (l : Learning)
    (h : l.confidence ≤ 7/10 ∨ l.description = ""
      ∨ MemorySummarize.section_map l.type = none
      ∨ containsSubstr l.description st.1 = true) :
    MemorySummarize.propagateStep st l = st := by
  rw [MemorySummarize.propagateStep]
  by_cases h1 : l.confidence ≤ 7/10
  · rw [if_pos h1]
  · rw [if_neg h1]
    by_cases h2 : (l.description == "") = true
    · rw [if_pos h2]
    · rw [if_neg h2]
      rcases h3 : MemorySummarize.section_map l.type with _ | sh
      · simp only [h3]
      · simp only [h3]
        have hsub : containsSubstr l.description st.1 = true := by
          rcases h with h | h | h | h
          · exact absurd h h1
          · exact absurd (beq_iff_eq.mpr h) h2
          · rw [h3] at h
            cases h
          · exact h
        rw [if_pos hsub]

theorem propagate_skip_all :
    ∀ (learnings : List Learning) (memory : String),
    (∀ l ∈ learnings,
      MemorySummarize.propagateStep (memory, false) l = (memory, false)) →
    MemorySummarize.propagate_learnings_to_memory learnings memory
      = (memory, false)
  | [], _, _ => rfl
  | l :: ls, memory, h => by
    rw [MemorySummarize.propagate_learnings_to_memory, List.foldl_cons,
      h l (List.mem_cons_self l ls)]
    exact propagate_skip_all ls memory
      (fun l' hl' => h l' (List.mem_cons_of_mem l hl'))

/-- C5: if every record that would be propagated (confidence > 0.7, a mapped
type, a nonempty description) has its description already occurring as a
substring of the memory document, then `propagate_learnings_to_memory`
returns the document unchanged with `modified = false`: no write is
performed, so `MEMORY.md` is byte-for-byte unchanged (the `Last updated`
timestamp is maintained by the separate `update_memory_md_timestamp`). -/
theorem propagate_learnings_dedup (learnings : List Learning) (memory : String)
    (h : ∀ l ∈ learnings, 7/10 < l.confidence → l.description ≠ "" →
      MemorySummarize.section_map l.type ≠ none →
      containsSubstr l.description memory = true) :
    MemorySummarize.propagate_learnings_to_memory learnings memory
      = (memory, false) := by
  refine propagate_skip_all learnings memory
    (fun l hl => propagateStep_skip _ l ?_)
  by_cases h1 : l.confidence ≤ 7/10
  · exact Or.inl h1
  · by_cases h2 : l.description = ""
    · exact Or.inr (Or.inl h2)
    · by_cases h3 : MemorySummarize.section_map l.type = none
      · exact Or.inr (Or.inr (Or.inl h3))
      · exact Or.inr (Or.inr (Or.inr (h l hl (not_le.mp h1) h2 h3)))

/-- Witness for C5: a high-confidence decision record whose description is
already a bullet of `memEx` leaves the document byte-for-byte unchanged. -/
theorem propagate_learnings_dedup_witness :
    MemorySummarize.propagate_learnings_to_memory learnEx memEx
      = (memEx, false) := by
  apply propagate_learnings_dedup
  intro l hl
  rw [learnEx, List.mem_singleton] at hl
  subst hl
  intro _ _ _
  decide

/-- C9: every record the correction/pattern detectors emit has confidence
≤ 0.7 (0.6 and 0.5 respectively), and the propagator's `confidence <= 0.7`
gate therefore skips all of them: propagating exactly the detectors' output
leaves the memory document unchanged with `modified = false` — no pattern or
correction record of this pipeline ever reaches `## Patterns & Conventions`;
only the 0.9-confidence `decision` and 0.8-confidence `issue` records can
pass the gate. -/
theorem pipeline_low_confidence_never_propagated (today : String)
    (acts : List Activity) (memory : String) :
    MemorySummarize.propagate_learnings_to_memory
        (MemoryLearner.detect_corrections today acts ++
          MemoryLearner.detect_related_patterns today acts) memory
      = (memory, false)
    ∧ (MemoryLearner.detect_corrections today acts ++
        MemoryLearner.detect_related_patterns today acts).all
        (fun r => decide (r.confidence ≤ 7/10)) = true := by
  have hconf : ∀ l ∈ MemoryLearner.detect_corrections today acts ++
      MemoryLearner.detect_related_patterns today acts,
      l.confidence ≤ 7/10 := by
    intro l hl
    rcases List.mem_append.mp hl with h | h
    · rw [MemoryLearner.detect_corrections] at h
      rcases List.mem_map.mp h with ⟨q, _, rfl⟩
      show (6 : Rat)/10 ≤ 7/10
      norm_num
    · rw [MemoryLearner.detect_related_patterns] at h
      rcases List.mem_map.mp h with ⟨q, _, rfl⟩
      show (5 : Rat)/10 ≤ 7/10
      norm_num
  constructor
  · exact propagate_skip_all _ memory
      (fun l hl => propagateStep_skip _ l (Or.inl (hconf l hl)))
  · rw [List.all_eq_true]
    intro r hr
    simpa using hconf r hr

set_option maxRecDepth 8000 in
/-- C1 fails on the code: `update_session_end_timestamp` contains no check
for an existing "Session ended" marker (and `main` never short-circuits), so
on a log that already ends with the marker a second invocation appends a
second marker line and the file content differs — evaluated here at
`logC1Ex`, which already carries the marker. -/
theorem update_session_end_timestamp_not_guarded :
    containsSubstr "Session ended" logC1Ex = true
    ∧ MemorySummarize.update_session_end_timestamp "10:00:05" (some logC1Ex)
        = some (logC1Ex ++ "- \x6010:00:05\x60 - Session ended\n")
    ∧ MemorySummarize.update_session_end_timestamp "10:00:05" (some logC1Ex)
        ≠ some logC1Ex := by
  refine ⟨by decide, rfl, by decide⟩

theorem pick_foldl_ge_acc :
    ∀ (l : List (String × List Nat)) (acc : String × List Nat),
    acc.2.length ≤
      (l.foldl (fun b t => if b.2.length < t.2.length then t else b) acc).2.length := by
  intro l
  induction l with
  | nil => intro acc; exact Nat.le_refl _
  | cons t l ih =>
    intro acc
    rw [List.foldl_cons]
    refine Nat.le_trans ?_ (ih _)
    by_cases h : acc.2.length < t.2.length
    · rw [if_pos h]
      omega
    · rw [if_neg h]

theorem pick_foldl_ge_mem :
    ∀ (l : List (String × List Nat)) (acc t : String × List Nat), t ∈ l →
    t.2.length ≤
      (l.foldl (fun b u => if b.2.length < u.2.length then u else b) acc).2.length := by
  intro l
  induction l with
  | nil => intro acc t ht; cases ht
  | cons u l ih =>
    intro acc t ht
    rw [List.foldl_cons]
    rcases List.mem_cons.mp ht with rfl | ht'
    · refine Nat.le_trans ?_ (pick_foldl_ge_acc l _)
      by_cases h : acc.2.length < t.2.length
      · rw [if_pos h]
      · rw [if_neg h]
        omega
    · exact ih _ t ht'

theorem pickLongest_none {l : List (String × List Nat)}
    (h : MemorySummarize.pickLongest l = none) : l = [] := by
  cases l with
  | nil => rfl
  | cons u rest =>
    rw [MemorySummarize.pickLongest] at h
    cases h

theorem pickLongest_max {sections : List (String × List Nat)}
    {s : String × List Nat}
    (h : MemorySummarize.pickLongest sections = some s) :
    ∀ t ∈ sections, t.2.length ≤ s.2.length := by
  cases sections with
  | nil => cases h
  | cons u rest =>
    rw [MemorySummarize.pickLongest] at h
    cases h
    intro t ht
    rcases List.mem_cons.mp ht with rfl | ht'
    · exact pick_foldl_ge_acc rest t
    · exact pick_foldl_ge_mem rest u t ht'

theorem trimStep_none_bound {lines : List String}
    (h : MemorySummarize.trimStep lines = none) :
    ∀ s ∈ MemorySummarize.allSections lines, s.2.length ≤ 1 := by
  intro s hs
  by_cases he : s.2.length ≤ 1
  · exact he
  · exfalso
    have hne : (!s.2.isEmpty) = true := by
      rcases hsnd : s.2 with _ | _
      · rw [hsnd] at he
        simp at he
      · simp
    have hmemf : s ∈ (MemorySummarize.allSections lines).filter
        (fun t => !t.2.isEmpty) :=
      List.mem_filter.mpr ⟨hs, hne⟩
    rw [MemorySummarize.trimStep] at h
    rcases hp : MemorySummarize.pickLongest
        ((MemorySummarize.allSections lines).filter (fun t => !t.2.isEmpty))
      with _ | m
    · rw [pickLongest_none hp] at hmemf
      cases hmemf
    · rw [hp] at h
      have hmax := pickLongest_max hp s hmemf
      rcases m with ⟨nm, idxs⟩
      rcases idxs with _ | ⟨i, idxs2⟩
      · have h0 : s.2.length ≤ 0 := hmax
        omega
      · rcases idxs2 with _ | ⟨j, idxs3⟩
        · have h1 : s.2.length ≤ 1 := hmax
          omega
        · exact Option.noConfusion h

theorem capLoopAux_spec (max_bytes : Nat) :
    ∀ (fuel : Nat) (lines : List String),
    MemorySummarize.byteSize
        (MemorySummarize.capLoopAux max_bytes fuel lines).1 ≤ max_bytes
    ∨ (∀ s ∈ MemorySummarize.allSections
          (MemorySummarize.capLoopAux max_bytes fuel lines).1, s.2.length ≤ 1)
    ∨ (MemorySummarize.capLoopAux max_bytes fuel lines).2 = 0 := by
  intro fuel
  induction fuel with
  | zero => intro lines; exact Or.inr (Or.inr rfl)
  | succ fuel ih =>
    intro lines
    rw [MemorySummarize.capLoopAux]
    by_cases hb : MemorySummarize.byteSize lines ≤ max_bytes
    · rw [if_pos hb]
      exact Or.inl hb
    · rw [if_neg hb]
      rcases ht : MemorySummarize.trimStep lines with _ | lines2
      · exact Or.inr (Or.inl (trimStep_none_bound ht))
      · exact ih lines2

/-- C2 as stated is false on the code: at a 50-byte configured cap, a
document whose single section holds no bullet line at all is left unchanged
by `cap_memory_md_size` — its eviction scan finds nothing to trim — so the
result is neither under the cap nor "every section reduced to exactly one
bullet". -/
theorem cap_memory_md_size_counterexample :
    ¬ (MemorySummarize.byteSize
          (MemorySummarize.cap_memory_md_size 50 linesC2Ex) ≤ 50
      ∨ ∀ s ∈ MemorySummarize.allSections
            (MemorySummarize.cap_memory_md_size 50 linesC2Ex),
          s.2.length = 1) := by
  decide

/-- C2 (amended): after `cap_memory_md_size`, the document's byte size is
≤ the configured cap, OR no section has more than one bullet line left (the
eviction keeps at least one bullet per section and cannot touch sections
with none), OR the loop's 50-iteration safety guard was exhausted
(`(capLoopAux max_bytes 50 lines).2 = 0`); the loop always terminates, being
fuel-bounded at 50 iterations. -/
theorem cap_memory_md_size_amended (max_bytes : Nat) (lines : List String) :
    MemorySummarize.byteSize
        (MemorySummarize.cap_memory_md_size max_bytes lines) ≤ max_bytes
    ∨ (∀ s ∈ MemorySummarize.allSections
          (MemorySummarize.cap_memory_md_size max_bytes lines),
        s.2.length ≤ 1)
    ∨ (MemorySummarize.capLoopAux max_bytes 50 lines).2 = 0 := by
  rw [MemorySummarize.cap_memory_md_size]
  by_cases hb : MemorySummarize.byteSize lines ≤ max_bytes
  · rw [if_pos hb]
    exact Or.inl hb
  · rw [if_neg hb]
    exact capLoopAux_spec max_bytes 50 lines

/-- C6: a daily log whose name the glob matches and whose `YYYY-MM-DD` stem
parses to a date more than 14 days before now (`eligibleBucket … = some b`)
is absent from `daily/` and present under its `YYYY-MM` bucket `b` in
`archive/` after running the archiver; a log that is not eligible (too
recent, unparsable, or not globbed) stays in `daily/`; and re-running the
archiver changes nothing. -/
theorem archive_old_logs_spec (nowSec : Nat) (fs : MemorySummarize.MemFS) :
    (∀ name b, name ∈ fs.daily →
      MemorySummarize.eligibleBucket nowSec name = some b →
      name ∉ (MemorySummarize.archive_old_logs nowSec fs).daily
      ∧ (b, name) ∈ (MemorySummarize.archive_old_logs nowSec fs).archive)
    ∧ (∀ name, name ∈ fs.daily →
      MemorySummarize.eligibleBucket nowSec name = none →
      name ∈ (MemorySummarize.archive_old_logs nowSec fs).daily)
    ∧ MemorySummarize.archive_old_logs nowSec
        (MemorySummarize.archive_old_logs nowSec fs)
      = MemorySummarize.archive_old_logs nowSec fs := by
  refine ⟨?_, ?_, ?_⟩
  · intro name b hmem helig
    constructor
    · intro hin
      rw [MemorySummarize.archive_old_logs] at hin
      have hn := (List.mem_filter.mp hin).2
      rw [helig] at hn
      cases hn
    · rw [MemorySummarize.archive_old_logs]
      refine List.mem_append.mpr (Or.inr ?_)
      refine List.mem_filterMap.mpr ⟨name, hmem, ?_⟩
      rw [helig]
      rfl
  · intro name hmem helig
    rw [MemorySummarize.archive_old_logs]
    refine List.mem_filter.mpr ⟨hmem, ?_⟩
    rw [helig]
    rfl
  · have hdaily : ∀ l : List String,
        (l.filter (fun n => (MemorySummarize.eligibleBucket nowSec n).isNone)).filter
            (fun n => (MemorySummarize.eligibleBucket nowSec n).isNone)
          = l.filter (fun n => (MemorySummarize.eligibleBucket nowSec n).isNone) := by
      intro l
      induction l with
      | nil => rfl
      | cons x xs ih =>
        by_cases hx : ((MemorySummarize.eligibleBucket nowSec x).isNone) = true
        · rw [List.filter_cons, if_pos hx, List.filter_cons, if_pos hx, ih]
        · rw [List.filter_cons, if_neg hx, ih]
    have harch : (fs.daily.filter
          (fun n => (MemorySummarize.eligibleBucket nowSec n).isNone)).filterMap
          (fun n => (MemorySummarize.eligibleBucket nowSec n).map (fun b => (b, n)))
        = [] := by
      refine List.filterMap_eq_nil_iff.mpr ?_
      intro n hn
      have h2 := (List.mem_filter.mp hn).2
      rw [Option.isNone_iff_eq_none] at h2
      rw [h2]
      rfl
    show MemorySummarize.MemFS.mk _ _ = MemorySummarize.MemFS.mk _ _
    rw [MemorySummarize.archive_old_logs]
    rw [hdaily fs.daily, harch, List.append_nil]

/-- Witness for C6 at `fsEx` / `nowEx` (2026-10-12 01:00): the 41-day-old
`2026-09-01.md` moves to bucket `2026-09`, the 2-day-old `2026-10-10.md`
stays, and a second run is a no-op. -/
theorem archive_old_logs_spec_witness :
    "2026-09-01.md" ∉ (MemorySummarize.archive_old_logs nowEx fsEx).daily
    ∧ ("2026-09", "2026-09-01.md")
        ∈ (MemorySummarize.archive_old_logs nowEx fsEx).archive
    ∧ "2026-10-10.md" ∈ (MemorySummarize.archive_old_logs nowEx fsEx).daily
    ∧ MemorySummarize.archive_old_logs nowEx
        (MemorySummarize.archive_old_logs nowEx fsEx)
      = MemorySummarize.archive_old_logs nowEx fsEx := by
  have h := archive_old_logs_spec nowEx fsEx
  refine ⟨(h.1 "2026-09-01.md" "2026-09" (by decide) (by decide)).1,
    (h.1 "2026-09-01.md" "2026-09" (by decide) (by decide)).2,
    h.2.1 "2026-10-10.md" (by decide) (by decide), h.2.2⟩

/-- C7 fails on the code: `main` of `memory-logger.py` wraps only the
`json.load` in its `try`, so while a malformed payload is swallowed
(second conjunct), an ordinary edit payload on a file system that refuses
the daily-log write makes `main` raise the `OSError` from
`append_to_daily_log` to the host (first conjunct). -/
theorem memory_logger_main_raises :
    MemoryLogger.main wIOEx (some hdEditEx) = Except.error "OSError"
    ∧ MemoryLogger.main wIOEx none = Except.ok wIOEx :=
  ⟨rfl, rfl⟩

/-- C10: the denylist check of `should_log_file` is a case-insensitive
substring match over the whole path, so whenever any `skip_patterns` entry
occurs anywhere inside the lowercased `file_path`-or-`notebook_path` (for
example `build/` inside `src/rebuild/main.py`), `log_file_change` returns
without appending: the world — in particular the daily log — is unchanged
and no entry is written. -/
theorem log_file_change_denylist (w : MemoryLogger.World)
    (ti : MemoryLogger.ToolInput) (pat : String)
    (hp : pat ∈ MemoryLogger.skip_patterns)
    (hs : containsSubstr pat
      (pyLower (pyOr (ti.getS "file_path") (ti.getS "notebook_path"))) = true) :
    MemoryLogger.log_file_change w ti = Except.ok w := by
  have hslf : MemoryLogger.should_log_file
      (pyOr (ti.getS "file_path") (ti.getS "notebook_path")) = false := by
    rw [MemoryLogger.should_log_file]
    simp only [Bool.not_eq_false']
    exact List.any_eq_true.mpr ⟨pat, hp, hs⟩
  simp only [MemoryLogger.log_file_change, hslf]
  simp

/-- Witness for C10: an edit of `src/rebuild/main.py` — whose lowercased
path contains the pattern `build/` inside the component `rebuild/` — logs
nothing. -/
theorem log_file_change_denylist_witness :
    MemoryLogger.log_file_change wOKEx tiRebuildEx = Except.ok wOKEx := by
  apply log_file_change_denylist wOKEx tiRebuildEx "build/"
  · decide
  · decide

theorem lookup_append (l1 l2 : Ooxml.FileSet) (k : String) :
    (l1 ++ l2).lookup k =
      match l1.lookup k with
      | some v => some v
      | none => l2.lookup k := by
  induction l1 with
  | nil => rfl
  | cons e t ih =>
    rcases e with ⟨a, b⟩
    rw [List.cons_append]
    by_cases h : (k == a) = true
    · simp only [List.lookup_cons, h]
    · rw [Bool.not_eq_true] at h
      simp only [List.lookup_cons, h, ih]

theorem lookup_eq_none_iff {l : Ooxml.FileSet} {k : String} :
    l.lookup k = none ↔ k ∉ l.map Prod.fst := by
  induction l with
  | nil => simp
  | cons e t ih =>
    rcases e with ⟨a, b⟩
    by_cases h : (k == a) = true
    · simp only [List.lookup_cons, h, List.map_cons, List.mem_cons]
      have hka : k = a := beq_iff_eq.mp h
      simp [hka]
    · rw [Bool.not_eq_true] at h
      simp only [List.lookup_cons, h, List.map_cons, List.mem_cons, ih]
      have hka : ¬ k = a := by
        intro e
        subst e
        rw [beq_self_eq_true] at h
        exact Bool.noConfusion h
      constructor
      · intro hn
        rintro (he | hm)
        · exact hka he
        · exact hn hm
      · intro hn hm
        exact hn (Or.inr hm)

theorem lookup_some_mem {l : Ooxml.FileSet} {k : String} {v : List Nat}
    (h : l.lookup k = some v) : (k, v) ∈ l := by
  induction l with
  | nil => cases h
  | cons e t ih =>
    rcases e with ⟨a, b⟩
    by_cases hk : (k == a) = true
    · simp only [List.lookup_cons, hk] at h
      cases h
      rw [beq_iff_eq.mp hk]
      exact List.mem_cons_self _ _
    · rw [Bool.not_eq_true] at hk
      simp only [List.lookup_cons, hk] at h
      exact List.mem_cons_of_mem _ (ih h)

theorem mem_lookup_some {l : Ooxml.FileSet} {k : String} {v : List Nat}
    (nd : (l.map Prod.fst).Nodup) (h : (k, v) ∈ l) : l.lookup k = some v := by
  induction l with
  | nil => cases h
  | cons e t ih =>
    rcases e with ⟨a, b⟩
    have nd' : (a :: t.map Prod.fst).Nodup := by simpa using nd
    rcases List.mem_cons.mp h with he | hm
    · cases he
      simp only [List.lookup_cons, beq_self_eq_true]
    · have hka : ¬ (k == a) = true := by
        intro e
        have hk : k = a := beq_iff_eq.mp e
        subst hk
        exact (List.nodup_cons.mp nd').1 (List.mem_map_of_mem Prod.fst hm)
      rw [Bool.not_eq_true] at hka
      simp only [List.lookup_cons, hka]
      exact ih (List.nodup_cons.mp nd').2 hm

theorem lookup_of_perm {l1 l2 : Ooxml.FileSet}
    (nd : (l1.map Prod.fst).Nodup) (hp : List.Perm l1 l2) (k : String) :
    l1.lookup k = l2.lookup k := by
  rcases h : l1.lookup k with _ | v
  · have hk : k ∉ l1.map Prod.fst := lookup_eq_none_iff.mp h
    have hk2 : k ∉ l2.map Prod.fst := fun hm =>
      hk ((hp.map Prod.fst).mem_iff.mpr hm)
    exact (lookup_eq_none_iff.mpr hk2).symm
  · have hmem : (k, v) ∈ l2 := hp.mem_iff.mp (lookup_some_mem h)
    have nd2 : (l2.map Prod.fst).Nodup := ((hp.map Prod.fst).nodup_iff).mp nd
    exact (mem_lookup_some nd2 hmem).symm

theorem baseName_ctName : Ooxml.baseName Ooxml.ctName = Ooxml.ctName := by
  decide

/-- C8 (amended): for a tree with unique paths, a top-level
`[Content_Types].xml`, and no OTHER file whose base name is
`[Content_Types].xml`, packing succeeds, the archive's first entry is
`[Content_Types].xml`, and unpacking the archive reproduces the original
file set byte-for-byte (the same content at every path). -/
theorem pack_unpack_roundtrip (files : Ooxml.FileSet) (ct : List Nat)
    (hnd : (files.map Prod.fst).Nodup)
    (hct : files.lookup Ooxml.ctName = some ct)
    (hbase : ∀ e ∈ files, e.1 = Ooxml.ctName
      ∨ Ooxml.baseName e.1 ≠ Ooxml.ctName) :
    ∃ ar, Ooxml.pack files = some ar
      ∧ ar.head? = some (Ooxml.ctName, ct)
      ∧ ∀ p, Ooxml.unpack ar p = files.lookup p := by
  refine ⟨(Ooxml.ctName, ct) ::
    (Ooxml.sortByPath files).filter
      (fun e => Ooxml.baseName e.1 != Ooxml.ctName), ?_, rfl, ?_⟩
  · simp only [Ooxml.pack, hct]
  · set rest := (Ooxml.sortByPath files).filter
      (fun e => Ooxml.baseName e.1 != Ooxml.ctName) with hrest
    have hperm : List.Perm (Ooxml.sortByPath files) files :=
      List.perm_insertionSort _ files
    have ndS : ((Ooxml.sortByPath files).map Prod.fst).Nodup :=
      ((hperm.map Prod.fst).nodup_iff).mpr hnd
    have hsub : rest.Sublist (Ooxml.sortByPath files) := List.filter_sublist _
    have nd_rest : (rest.map Prod.fst).Nodup :=
      ndS.sublist (hsub.map Prod.fst)
    have nd_rev : (rest.reverse.map Prod.fst).Nodup := by
      rw [List.map_reverse]
      exact List.nodup_reverse.mpr nd_rest
    have hrest_ne_ct : ∀ e ∈ rest, e.1 ≠ Ooxml.ctName := by
      intro e he hc
      have hb := (List.mem_filter.mp he).2
      rw [hc, baseName_ctName] at hb
      simp at hb
    have hrest_sub_files : ∀ e ∈ rest, e ∈ files := fun e he =>
      hperm.mem_iff.mp (List.mem_filter.mp he).1
    intro p
    rw [Ooxml.unpack, List.reverse_cons, lookup_append]
    by_cases hp : p = Ooxml.ctName
    · subst hp
      have h1 : rest.reverse.lookup Ooxml.ctName = none := by
        refine lookup_eq_none_iff.mpr ?_
        intro hm
        rw [List.map_reverse, List.mem_reverse] at hm
        rcases List.mem_map.mp hm with ⟨e, he, hfst⟩
        exact hrest_ne_ct e he hfst
      rw [h1, hct]
      simp only [List.lookup_cons, beq_self_eq_true]
    · have h2 : ([(Ooxml.ctName, ct)] : Ooxml.FileSet).lookup p = none := by
        have hne : (p == Ooxml.ctName) = false := by
          rw [← Bool.not_eq_true]
          exact fun e => hp (beq_iff_eq.mp e)
        simp only [List.lookup_cons, hne]
        rfl
      have hrev : rest.reverse.lookup p = rest.lookup p :=
        lookup_of_perm nd_rev (List.reverse_perm rest) p
      rcases hf : files.lookup p with _ | v
      · have hnf : p ∉ files.map Prod.fst := lookup_eq_none_iff.mp hf
        have hnr : p ∉ rest.map Prod.fst := by
          intro hm
          rcases List.mem_map.mp hm with ⟨e, he, hfst⟩
          exact hnf (hfst ▸ List.mem_map_of_mem Prod.fst (hrest_sub_files e he))
        rw [hrev, lookup_eq_none_iff.mpr hnr, h2]
      · have hmemf : (p, v) ∈ files := lookup_some_mem hf
        have hmem_sorted : (p, v) ∈ Ooxml.sortByPath files := hperm.mem_iff.mpr hmemf
        have hpred : (Ooxml.baseName p != Ooxml.ctName) = true := by
          rcases hbase (p, v) hmemf with he | hne
          · exact absurd he hp
          · exact bne_iff_ne.mpr hne
        have hmem_rest : (p, v) ∈ rest :=
          List.mem_filter.mpr ⟨hmem_sorted, hpred⟩
        rw [hrev, mem_lookup_some nd_rest hmem_rest]

/-- C8 as stated is false on the code: `pack` excludes every file whose BASE
name is `[Content_Types].xml` (`file_path.name != "[Content_Types].xml"`),
so a tree that also holds `sub/[Content_Types].xml` packs to an archive
without that entry, and unpacking cannot reproduce the original file set. -/
theorem pack_unpack_counterexample :
    Ooxml.pack filesCEx = some [(Ooxml.ctName, [60])]
    ∧ Ooxml.unpack [(Ooxml.ctName, [60])] "sub/[Content_Types].xml" = none
    ∧ filesCEx.lookup "sub/[Content_Types].xml" = some [1] := by
  refine ⟨by decide, rfl, rfl⟩

/-- Witness for the amended C8 at an ordinary OOXML tree. -/
theorem pack_unpack_roundtrip_witness :
    ∃ ar, Ooxml.pack filesRTEx = some ar
      ∧ ar.head? = some (Ooxml.ctName, [60, 61])
      ∧ ∀ p, Ooxml.unpack ar p = filesRTEx.lookup p :=
  pack_unpack_roundtrip filesRTEx [60, 61] (by decide) (by decide) (by decide)
